import Mathlib

/-!
Verification development for the cckit state-access engine.

The Go sources under `state/` (state.go, query.go, errors.go) are embedded
shallowly: Go strings become `List Char`, byte slices become `List Nat`,
fallible operations return `Except GoErr _`, and the mutable chaincode stub
becomes an explicit `MockStub` value threaded through the operations.
Platform collaborators that are not part of the repository sources (the
fabric shim's composite-key construction and splitting, the stub's key-value
store, history iteration and rich-query iteration, and the pluggable
convert codec) are modelled from the specification where noted.
-/

namespace CCKit

/-- Error taxonomy of the state package, from state/errors.go.
`Other` stands for any error value produced outside this package
(for example by a pluggable transformer). -/
inductive GoErr where
  | ErrUnableToCreateStateKey
  | ErrKeyAlreadyExists
  | ErrKeyNotFound
  | ErrAllowOnlyOneValue
  | ErrKeyPartsLength
  | UnexpectedError
  | SetGetError
  | NoQuerySelectorError
  | InvalidSortQueryError
  | CompositeKeyError
  | Other
deriving DecidableEq, Repr

/-- A Go string, modelled as its list of characters. -/
abbrev GoStr := List Char

/-- A Go byte slice, modelled as a list of bytes; `[]` doubles as Go `nil`. -/
abbrev Bytes := List Nat

/-- Conversion from a Lean string literal to the Go string model. -/
def strOf (s : String) : GoStr := s.toList

/-- `state.Key`: ordered sequence of string parts (state.go). -/
abbrev GoKey := List GoStr

/-- Modelled from the spec: the platform's reserved composite-key separator
(the minimum unicode rune), supplied by the ledger accessor. -/
def minUnicodeRune : Char := Char.ofNat 0

/-- Modelled from the spec: the maximum unicode rune, forbidden inside
composite-key components by the platform's validation. -/
def maxUnicodeRune : Char := Char.ofNat 1114111

/-- Modelled from the spec: a composite-key component is valid when it
contains neither the reserved separator nor the maximum rune. -/
def validAttr (s : GoStr) : Bool :=
  s.all (fun c => c ≠ minUnicodeRune && c ≠ maxUnicodeRune)

/-- Modelled from the spec: the platform's composite-key construction
(`CreateCompositeKey` of the ledger accessor, absent from src): the key is
the reserved namespace separator, then the object type, then each attribute,
every component terminated by the separator; components holding a reserved
rune are rejected. -/
def createCompositeKey (objectType : GoStr) (attributes : List GoStr) :
    Except GoErr GoStr :=
  if validAttr objectType && attributes.all validAttr then
    .ok ([minUnicodeRune] ++ objectType ++ [minUnicodeRune] ++
      (attributes.map (fun a => a ++ [minUnicodeRune])).flatten)
  else
    .error .CompositeKeyError

/-- Modelled from the spec: component scan of the platform's
`SplitCompositeKey`: walk the characters after the namespace byte and cut a
component at every separator; characters after the last separator are
dropped. -/
def splitComponents : List Char → GoStr → List GoStr
  | [], _ => []
  | c :: rest, acc =>
    if c = minUnicodeRune then acc.reverse :: splitComponents rest []
    else splitComponents rest (c :: acc)

/-- Modelled from the spec: the platform's composite-key splitting
(`SplitCompositeKey` of the ledger accessor, absent from src): drop the
namespace byte, scan components, and return the first component as object
type and the rest as attributes. -/
def splitCompositeKey (ck : GoStr) : Option (GoStr × List GoStr) :=
  match splitComponents ck.tail [] with
  | [] => none
  | objectType :: attributes => some (objectType, attributes)

/-- `state.KeyToString` (state.go): the empty key fails with
`ErrKeyPartsLength`, a single part is returned unchanged, several parts are
encoded through the platform's composite-key construction. -/
def KeyToString (key : GoKey) : Except GoErr GoStr :=
  match key with
  | [] => .error .ErrKeyPartsLength
  | [k] => .ok k
  | k :: ks => createCompositeKey k ks

deriving instance DecidableEq for Except

/-- A Go `interface\x7b\x7d` value appearing at the engine boundary, resolved
the way `NormalizeStateKey` (state.go) inspects it: a `state.Key`, a
`[]string`, a `string`, a value implementing the `Keyer` interface (carrying
the result its `Key()` method returns), or any other value of the pluggable
payload type `V`. -/
inductive Entry (V : Type) where
  | key (k : GoKey)
  | strs (k : List GoStr)
  | str (s : GoStr)
  | keyer (kr : Except GoErr GoKey) (payload : V)
  | value (v : V)
deriving DecidableEq

/-- `state.NormalizeStateKey` (state.go): type switch over the supported
key sources; any other value fails with `ErrUnableToCreateStateKey`. -/
def NormalizeStateKey {V : Type} (key : Entry V) : Except GoErr GoKey :=
  match key with
  | .key k => .ok k
  | .keyer kr _ => kr
  | .str s => .ok [s]
  | .strs k => .ok k
  | .value _ => .error .ErrUnableToCreateStateKey

/-- One committed mutation of a ledger key, as the platform's history
iterator reports it: transaction id, timestamp, deletion marker and the
raw payload (empty for tombstones). -/
structure HistRow where
  txId : Nat
  timestamp : Nat
  isDelete : Bool
  value : Bytes
deriving DecidableEq

/-- Modelled from the spec: the ledger accessor (`shim.ChaincodeStubInterface`,
absent from src) backing one engine instance: a key-value store, the
per-key mutation history (oldest first; the iterator delivers it newest
first), canned rich-query results per query string, and a counter producing
transaction ids and timestamps. -/
structure MockStub where
  kv : List (GoStr × Bytes)
  hist : List (GoStr × List HistRow)
  queryResults : List (GoStr × List Bytes)
  txCounter : Nat
deriving DecidableEq

/-- Association-list lookup used by the mock ledger. -/
def assocGet {α : Type} (m : List (GoStr × α)) (k : GoStr) : Option α :=
  match m with
  | [] => none
  | (k', v) :: rest => if k' = k then some v else assocGet rest k

/-- Association-list insert-or-replace used by the mock ledger. -/
def assocPut {α : Type} (m : List (GoStr × α)) (k : GoStr) (v : α) :
    List (GoStr × α) :=
  match m with
  | [] => [(k, v)]
  | (k', v') :: rest =>
    if k' = k then (k, v) :: rest else (k', v') :: assocPut rest k v

/-- Association-list removal used by the mock ledger. -/
def assocDel {α : Type} (m : List (GoStr × α)) (k : GoStr) :
    List (GoStr × α) :=
  match m with
  | [] => []
  | (k', v') :: rest =>
    if k' = k then rest else (k', v') :: assocDel rest k

/-- Modelled from the spec: `stub.GetState` — raw bytes for a key, `nil`
(here `[]`) when absent. -/
def MockStub.getState (st : MockStub) (k : GoStr) : Bytes :=
  (assocGet st.kv k).getD []

/-- History rows recorded for a key, oldest first. -/
def MockStub.histOf (st : MockStub) (k : GoStr) : List HistRow :=
  (assocGet st.hist k).getD []

/-- Modelled from the spec: `stub.PutState` — overwrite the stored bytes and
record one committed mutation in the key's history. -/
def MockStub.putState (st : MockStub) (k : GoStr) (bb : Bytes) : MockStub :=
  { st with
    kv := assocPut st.kv k bb
    hist := assocPut st.hist k
      (st.histOf k ++ [⟨st.txCounter, st.txCounter, false, bb⟩])
    txCounter := st.txCounter + 1 }

/-- Modelled from the spec: `stub.DelState` — remove the key (idempotent)
and record a tombstone mutation with an empty payload. -/
def MockStub.delState (st : MockStub) (k : GoStr) : MockStub :=
  { st with
    kv := assocDel st.kv k
    hist := assocPut st.hist k
      (st.histOf k ++ [⟨st.txCounter, st.txCounter, true, []⟩])
    txCounter := st.txCounter + 1 }

/-- Modelled from the spec: `stub.GetHistoryForKey` delivers the committed
mutations newest first. -/
def MockStub.getHistoryForKey (st : MockStub) (k : GoStr) : List HistRow :=
  (st.histOf k).reverse

/-- Modelled from the spec: `stub.GetQueryResult` — the rich-query iterator
rows (raw payloads) the backend returns for a query string. -/
def MockStub.getQueryResult (st : MockStub) (q : GoStr) : List Bytes :=
  (assocGet st.queryResults q).getD []

/-- The empty mock ledger. -/
def MockStub.empty : MockStub := ⟨[], [], [], 0⟩

/-- `state.TransformedKey` (state.go): origin parts, transformed parts and
the final encoded string. -/
structure TransformedKey where
  Origin : GoKey
  Parts : GoKey
  Str : GoStr
deriving DecidableEq

/-- `state.Impl` (state.go) without its stub handle: the three pluggable
transformers of one engine instance. The transformer types (KeyTransformer,
FromBytesTransformer, ToBytesTransformer) are absent from src and are
modelled from the spec's Value Transformer pair and key-transform stage. -/
structure Impl (V : Type) where
  StateKeyTransformer : GoKey → Except GoErr GoKey
  StateGetTransformer : Bytes → List (Entry V) → Except GoErr (Entry V)
  StatePutTransformer : Entry V → Except GoErr Bytes

/-- `Impl.Key` (state.go): normalize the input, apply the key transformer,
encode to the ledger key string. -/
def Impl.key {V : Type} (s : Impl V) (entry : Entry V) :
    Except GoErr TransformedKey := do
  let origin ← NormalizeStateKey entry
  let parts ← s.StateKeyTransformer origin
  let str ← KeyToString parts
  return ⟨origin, parts, str⟩

/-- `Impl.Get` (state.go): resolve the key (failures surface as
`UnexpectedError`), read the raw bytes; absent plus a supplied default
(`config[1]`) returns the default, absent without a default fails
`ErrKeyNotFound`, present decodes through the get transformer. -/
def Impl.Get {V : Type} (s : Impl V) (st : MockStub) (entry : Entry V)
    (config : List (Entry V)) : Except GoErr (Entry V) :=
  match s.key entry with
  | .error _ => .error .UnexpectedError
  | .ok key =>
    let bb := st.getState key.Str
    if bb.length = 0 then
      match config with
      | _ :: dflt :: _ => .ok dflt
      | _ => .error .ErrKeyNotFound
    else
      s.StateGetTransformer bb config

/-- `Impl.Exists` (state.go): true iff the stored byte length is nonzero. -/
def Impl.Exists {V : Type} (s : Impl V) (st : MockStub) (entry : Entry V) :
    Except GoErr Bool :=
  match s.key entry with
  | .error _ => .error .UnexpectedError
  | .ok key => .ok (st.getState key.Str ≠ [])

/-- `Impl.argKeyValue` (state.go): normalize the key argument; with no extra
values the argument itself is the value, with one extra value that value is
taken, with more the call fails with `ErrAllowOnlyOneValue`. -/
def Impl.argKeyValue {V : Type} (arg : Entry V) (values : List (Entry V)) :
    Except GoErr (GoKey × Entry V) := do
  let key ← NormalizeStateKey arg
  match values with
  | [] => return (key, arg)
  | [v] => return (key, v)
  | _ => .error .ErrAllowOnlyOneValue

/-- `Impl.Put` (state.go): split key and value (failures surface as
`UnexpectedError`), encode the value, resolve the key and overwrite the
stored bytes unconditionally. -/
def Impl.Put {V : Type} (s : Impl V) (st : MockStub) (entry : Entry V)
    (values : List (Entry V)) : Except GoErr MockStub :=
  match Impl.argKeyValue entry values with
  | .error _ => .error .UnexpectedError
  | .ok (entryKey, value) =>
    match s.StatePutTransformer value with
    | .error _ => .error .UnexpectedError
    | .ok bb =>
      match s.key (.key entryKey) with
      | .error _ => .error .UnexpectedError
      | .ok key => .ok (st.putState key.Str bb)

/-- `Impl.Insert` (state.go): check existence first (failures surface as
`SetGetError`), fail with `ErrKeyAlreadyExists` when present, otherwise
split key and value and delegate to `Put`. -/
def Impl.Insert {V : Type} (s : Impl V) (st : MockStub) (entry : Entry V)
    (values : List (Entry V)) : Except GoErr MockStub :=
  match s.Exists st entry with
  | .error _ => .error .SetGetError
  | .ok true => .error .ErrKeyAlreadyExists
  | .ok false =>
    match Impl.argKeyValue entry values with
    | .error _ => .error .UnexpectedError
    | .ok (key, value) => s.Put st (.key key) [value]

/-- `Impl.Delete` (state.go): resolve the key (failures surface as
`UnexpectedError`) and delete it from the ledger. -/
def Impl.Delete {V : Type} (s : Impl V) (st : MockStub) (entry : Entry V) :
    Except GoErr MockStub :=
  match s.key entry with
  | .error _ => .error .UnexpectedError
  | .ok key => .ok (st.delState key.Str)

/-- One decoded history record (`state.HistoryEntry`, state.go). -/
structure HistoryEntry (V : Type) where
  TxId : Nat
  Timestamp : Nat
  IsDeleted : Bool
  Value : Entry V
deriving DecidableEq

/-- The iteration loop of `Impl.GetHistory` (state.go): decode every row's
payload through the get transformer (any failure aborts the whole call with
`UnexpectedError`) and keep the iterator's delivery order. -/
def fillHistory {V : Type} (tr : Bytes → List (Entry V) → Except GoErr (Entry V))
    (target : Entry V) : List HistRow → Except GoErr (List (HistoryEntry V))
  | [] => .ok []
  | r :: rest =>
    match tr r.value [target] with
    | .error _ => .error .UnexpectedError
    | .ok v =>
      match fillHistory tr target rest with
      | .error e => .error e
      | .ok tail => .ok (⟨r.txId, r.timestamp, r.isDelete, v⟩ :: tail)

/-- `Impl.GetHistory` (state.go): resolve the key (failures surface as
`UnexpectedError`), walk the platform's history iterator and decode each
mutation. -/
def Impl.GetHistory {V : Type} (s : Impl V) (st : MockStub) (entry : Entry V)
    (target : Entry V) : Except GoErr (List (HistoryEntry V)) :=
  match s.key entry with
  | .error _ => .error .UnexpectedError
  | .ok key => fillHistory s.StateGetTransformer target (st.getHistoryForKey key.Str)

/-- The iteration loop of `Impl.RichQuery` (state.go): consume rows while
the counter stays below the page size, decode each row (any failure aborts
with `UnexpectedError`), and stop — returning the counter — once the page
size is reached or the iterator is exhausted. -/
def richQueryLoop {V : Type} (tr : Bytes → List (Entry V) → Except GoErr (Entry V))
    (target : Entry V) (pageSize : Int) :
    List Bytes → Int → Except GoErr (List (Entry V) × Int)
  | [], i => .ok ([], i)
  | b :: rest, i =>
    if i < pageSize then
      match tr b [target] with
      | .error _ => .error .UnexpectedError
      | .ok v =>
        match richQueryLoop tr target pageSize rest (i + 1) with
        | .error e => .error e
        | .ok (entries, n) => .ok (v :: entries, n)
    else
      .ok ([], i)

/-- `Impl.RichQuery` (state.go): run the backend query and collect at most
`pageSize` decoded rows together with the final loop counter. -/
def Impl.RichQuery {V : Type} (s : Impl V) (st : MockStub) (query : GoStr)
    (target : Entry V) (pageSize : Int) : Except GoErr (List (Entry V) × Int) :=
  richQueryLoop s.StateGetTransformer target pageSize (st.getQueryResult query) 0

/-- A JSON value, standing for the Go `interface\x7b\x7d` payloads the query
builder stores (strings, numbers and the nested maps/slices its compiler
produces). Objects keep their fields as an ordered association list. -/
inductive JVal where
  | null
  | bool (b : Bool)
  | num (n : Int)
  | str (s : GoStr)
  | arr (xs : List JVal)
  | obj (fields : List (GoStr × JVal))

/-- A JSON object body: ordered field list. -/
abbrev JObj := List (GoStr × JVal)

/-- `state.Combination` (query.go): operator tag, sibling filters, opaque
conditions and nested combinations. The Go struct's `Value` field is never
written and its `Builder` back-pointer is never read by the compiler, so
both are omitted here; nesting built through `Combination.AddCombination`
is represented directly by the `combinations` field. -/
inductive Combination where
  | mk (ctype : GoStr) (filters : List (GoStr × JVal)) (conditions : List JVal)
      (combinations : List Combination)

/-- The operator tag of a combination. -/
def Combination.ctype : Combination → GoStr
  | .mk t _ _ _ => t

/-- `state.AND` (query.go). -/
def qAND : GoStr := strOf "$and"
/-- `state.OR` (query.go). -/
def qOR : GoStr := strOf "$or"
/-- `state.ALL` (query.go). -/
def qALL : GoStr := strOf "$all"
/-- `state.NOR` (query.go). -/
def qNOR : GoStr := strOf "$nor"

mutual
/-- The array body a combination compiles to: each sibling filter rendered
as a single-field map, followed by the rendered nested combinations
(query.go, loops of `addCombinationToRoot` / `addCombinationToParent`). -/
def combEntries : Combination → List JVal
  | .mk _ fs _ cs => fs.map (fun p => JVal.obj [p]) ++ combChildren cs

/-- `state.addCombinationToParent` (query.go), restricted to the rendered
children: every nested combination becomes a map holding its operator tag
when any filter or grandchild was appended, and stays the empty map
otherwise; conditions attached to a combination are never rendered. -/
def combChildren : List Combination → List JVal
  | [] => []
  | c :: rest =>
    (match combEntries c with
     | [] => JVal.obj []
     | es => JVal.obj [(c.ctype, JVal.arr es)]) :: combChildren rest
end

/-- `state.addCombinationToRoot` (query.go): the root selector maps the
operator tag to the compiled array; with nothing appended the Go slice is
`nil`, which serializes as `null`. -/
def addCombinationToRoot (root : JObj) (c : Combination) : JObj :=
  match combEntries c with
  | [] => assocPut root c.ctype JVal.null
  | es => assocPut root c.ctype (JVal.arr es)

/-- Byte-order comparison on strings, as Go compares map keys when
`encoding/json` sorts them (the keys used here are ASCII, where character
order coincides with UTF-8 byte order). -/
def goStrLt : GoStr → GoStr → Bool
  | [], [] => false
  | [], _ :: _ => true
  | _ :: _, [] => false
  | a :: as, b :: bs => if a = b then goStrLt as bs else decide (a < b)

/-- Insertion step of the key sort `encoding/json` applies to map fields. -/
def insertField (p : GoStr × JVal) : JObj → JObj
  | [] => [p]
  | q :: rest => if goStrLt p.1 q.1 then p :: q :: rest else q :: insertField p rest

/-- The key sort `encoding/json` applies to the fields of one map. -/
def sortFields : JObj → JObj
  | [] => []
  | p :: rest => insertField p (sortFields rest)

mutual
/-- Recursively sort every object's fields, as `encoding/json` does to maps
at every nesting level. -/
def jSort : JVal → JVal
  | .obj fs => .obj (sortFields (jSortFields fs))
  | .arr xs => .arr (jSortList xs)
  | v => v

/-- `jSort` mapped over an array body. -/
def jSortList : List JVal → List JVal
  | [] => []
  | x :: rest => jSort x :: jSortList rest

/-- `jSort` mapped over an object body. -/
def jSortFields : JObj → JObj
  | [] => []
  | (k, v) :: rest => (k, jSort v) :: jSortFields rest
end

/-- One hexadecimal digit, lowercase, as `encoding/json` prints escapes. -/
def hexDigit (n : Nat) : Char :=
  if n < 10 then Char.ofNat (48 + n) else Char.ofNat (87 + n)

/-- Escape one character of a JSON string the way Go's `encoding/json`
does (HTML escaping enabled by default). -/
def escapeChar (c : Char) : GoStr :=
  if c = '"' then ['\\', '"']
  else if c = '\\' then ['\\', '\\']
  else if c = '\n' then ['\\', 'n']
  else if c = '\r' then ['\\', 'r']
  else if c = '\t' then ['\\', 't']
  else if c = '<' ∨ c = '>' ∨ c = '&' ∨ c.toNat < 32 then
    ['\\', 'u', '0', '0', hexDigit (c.toNat / 16), hexDigit (c.toNat % 16)]
  else [c]

/-- A JSON string literal with its quotes and escapes. -/
def jQuote (s : GoStr) : GoStr :=
  ['"'] ++ (s.map escapeChar).flatten ++ ['"']

/-- The object opening brace. -/
def lbrace : Char := Char.ofNat 123
/-- The object closing brace. -/
def rbrace : Char := Char.ofNat 125

mutual
/-- Serialize one (already key-sorted) JSON value as `encoding/json`
renders it: no spaces, integers in decimal, object fields in key order. -/
def jRender : JVal → GoStr
  | .null => strOf "null"
  | .bool true => strOf "true"
  | .bool false => strOf "false"
  | .num n => (toString n).toList
  | .str s => jQuote s
  | .arr xs => ['['] ++ jRenderArr xs ++ [']']
  | .obj fs => [lbrace] ++ jRenderObj fs ++ [rbrace]

/-- Comma-joined rendering of an array body. -/
def jRenderArr : List JVal → GoStr
  | [] => []
  | [x] => jRender x
  | x :: y :: rest => jRender x ++ [','] ++ jRenderArr (y :: rest)

/-- Comma-joined rendering of an object body. -/
def jRenderObj : JObj → GoStr
  | [] => []
  | [(k, v)] => jQuote k ++ [':'] ++ jRender v
  | (k, v) :: q :: rest => jQuote k ++ [':'] ++ jRender v ++ [','] ++ jRenderObj (q :: rest)
end

/-- Go's `json.Marshal` on the nested string-keyed maps the builder
produces: map keys are sorted at every level, then the document is
rendered without whitespace. -/
def goJsonMarshal (v : JVal) : GoStr :=
  jRender (jSort v)

/-- `state.QueryBuilder` (query.go). The Go struct's `Ids` field is never
read or written anywhere in the package and is omitted. -/
structure QueryBuilder where
  Fields : List GoStr
  DocType : GoStr
  Filters : JObj
  Conditions : JObj
  Combinations : List Combination
  Sorts : List (GoStr × GoStr)
  HasSelector : Bool
  HasLimit : Bool
  HasSkip : Bool
  HasIndex : Bool
  Limit : Int
  Skip : Int
  Index : GoStr

/-- `state.NewQB` (query.go): a fresh builder with empty filter and
condition maps. -/
def NewQB : QueryBuilder :=
  ⟨[], [], [], [], [], [], false, false, false, false, 0, 0, []⟩

/-- `QueryBuilder.AddField` (query.go): append projection fields. -/
def QueryBuilder.AddField (b : QueryBuilder) (fields : List GoStr) : QueryBuilder :=
  { b with Fields := b.Fields ++ fields }

/-- `QueryBuilder.AddUseIndex` (query.go): record an index hint. -/
def QueryBuilder.AddUseIndex (b : QueryBuilder) (index : GoStr) : QueryBuilder :=
  { b with Index := index, HasIndex := true }

/-- `QueryBuilder.AddFilter` (query.go): store an equality filter and mark
the builder as holding a selector. -/
def QueryBuilder.AddFilter (b : QueryBuilder) (field : GoStr) (value : JVal) :
    QueryBuilder :=
  { b with Filters := assocPut b.Filters field value, HasSelector := true }

/-- `QueryBuilder.SetDocType` (query.go): store the doc type and mark the
builder as holding a selector. -/
def QueryBuilder.SetDocType (b : QueryBuilder) (docType : GoStr) : QueryBuilder :=
  { b with DocType := docType, HasSelector := true }

/-- `QueryBuilder.SetLimit` (query.go). -/
def QueryBuilder.SetLimit (b : QueryBuilder) (limit : Int) : QueryBuilder :=
  { b with Limit := limit, HasLimit := true }

/-- `QueryBuilder.SetSkip` (query.go). -/
def QueryBuilder.SetSkip (b : QueryBuilder) (skip : Int) : QueryBuilder :=
  { b with Skip := skip, HasSkip := true }

/-- `QueryBuilder.AddCondition` (query.go): store an operator condition and
mark the builder as holding a selector. -/
def QueryBuilder.AddCondition (b : QueryBuilder) (field : GoStr) (condition : JVal) :
    QueryBuilder :=
  { b with Conditions := assocPut b.Conditions field condition, HasSelector := true }

/-- Lowercasing of an ASCII string, modelling `strings.ToLower` on the
directions the sort API handles. -/
def goToLower (s : GoStr) : GoStr :=
  s.map fun c => if 'A' ≤ c ∧ c ≤ 'Z' then Char.ofNat (c.toNat + 32) else c

/-- `QueryBuilder.AddSort` (query.go): append a single-field sort map with
the direction lowercased. It does not mark the builder as holding a
selector. -/
def QueryBuilder.AddSort (b : QueryBuilder) (field sortOrder : GoStr) : QueryBuilder :=
  { b with Sorts := b.Sorts ++ [(field, goToLower sortOrder)] }

/-- `strings.Split` on a one-character separator: every occurrence cuts. -/
def goSplit (sep : Char) : GoStr → List GoStr
  | [] => [[]]
  | c :: rest =>
    match goSplit sep rest with
    | [] => [[]]
    | h :: t => if c = sep then [] :: h :: t else (c :: h) :: t

/-- `QueryBuilder.AddManySorts` (query.go): walk the tokens in order; a
token splitting into exactly two parts whose second part is literally
`asc` or `desc` is handed to `AddSort`, any other token stops the loop with
`InvalidSortQueryError` (sorts added before the bad token remain). -/
def QueryBuilder.AddManySorts (b : QueryBuilder) (sortRequest : List GoStr) :
    QueryBuilder × Option GoErr :=
  match sortRequest with
  | [] => (b, none)
  | s :: rest =>
    match goSplit ':' s with
    | [f, d] =>
      if d = strOf "asc" ∨ d = strOf "desc" then
        (b.AddSort f d).AddManySorts rest
      else (b, some .InvalidSortQueryError)
    | _ => (b, some .InvalidSortQueryError)

/-- One variadic argument of `AddCombination`: Go classifies each by
reflected type name, `Filter` values against everything else. -/
inductive CombArg where
  | filter (field : GoStr) (value : JVal)
  | cond (c : JVal)

/-- `QueryBuilder.AddCombination` (query.go): classify the arguments into
filters and conditions in order, append the new combination, and return it
alongside the updated builder. -/
def QueryBuilder.AddCombination (b : QueryBuilder) (combinationType : GoStr)
    (args : List CombArg) : QueryBuilder × Combination :=
  let comb : Combination := .mk combinationType
    (args.filterMap fun a => match a with | .filter f v => some (f, v) | .cond _ => none)
    (args.filterMap fun a => match a with | .filter _ _ => none | .cond c => some c)
    []
  ({ b with Combinations := b.Combinations ++ [comb] }, comb)

/-- The document `QueryBuilder.Build` (query.go) assembles before
serialization: fields, the selector (doc type, filters, conditions and
compiled combinations merged as siblings), sort, limit, skip and index
hint, each added only when present. -/
def buildQueryMap (b : QueryBuilder) : JObj :=
  let queryMap : JObj := []
  let queryMap := if b.Fields.length > 0 then
    assocPut queryMap (strOf "fields") (.arr (b.Fields.map .str)) else queryMap
  let selectorMap : JObj := []
  let selectorMap := if b.DocType ≠ [] then
    assocPut selectorMap (strOf "docType") (.str b.DocType) else selectorMap
  let selectorMap := b.Filters.foldl (fun m p => assocPut m p.1 p.2) selectorMap
  let selectorMap := b.Conditions.foldl (fun m p => assocPut m p.1 p.2) selectorMap
  let selectorMap := b.Combinations.foldl addCombinationToRoot selectorMap
  let queryMap := if b.HasSelector then
    assocPut queryMap (strOf "selector") (.obj selectorMap) else queryMap
  let queryMap := if b.Sorts ≠ [] then
    assocPut queryMap (strOf "sort")
      (.arr (b.Sorts.map fun p => .obj [(p.1, .str p.2)])) else queryMap
  let queryMap := if b.HasLimit then
    assocPut queryMap (strOf "limit") (.num b.Limit) else queryMap
  let queryMap := if b.HasSkip then
    assocPut queryMap (strOf "skip") (.num b.Skip) else queryMap
  let queryMap := if b.HasIndex then
    assocPut queryMap (strOf "use_index") (.str b.Index) else queryMap
  queryMap

/-- `QueryBuilder.Build` (query.go): reject a builder without a selector
with `NoQuerySelectorError`, otherwise serialize the assembled document
(the marshal step cannot fail on these documents). -/
def QueryBuilder.Build (b : QueryBuilder) : Except GoErr GoStr :=
  if b.HasSelector = false then .error .NoQuerySelectorError
  else .ok (goJsonMarshal (.obj (buildQueryMap b)))

/-- One builder-mutating call, used to quantify over the ways a
`QueryBuilder` can be populated. -/
inductive QBCall where
  | addField (fields : List GoStr)
  | addUseIndex (index : GoStr)
  | addFilter (field : GoStr) (value : JVal)
  | setDocType (docType : GoStr)
  | setLimit (limit : Int)
  | setSkip (skip : Int)
  | addCondition (field : GoStr) (condition : JVal)
  | addSort (field sortOrder : GoStr)
  | addCombination (combinationType : GoStr) (args : List CombArg)

/-- Apply one builder call. -/
def applyCall (b : QueryBuilder) : QBCall → QueryBuilder
  | .addField fs => b.AddField fs
  | .addUseIndex i => b.AddUseIndex i
  | .addFilter f v => b.AddFilter f v
  | .setDocType t => b.SetDocType t
  | .setLimit n => b.SetLimit n
  | .setSkip n => b.SetSkip n
  | .addCondition f c => b.AddCondition f c
  | .addSort f d => b.AddSort f d
  | .addCombination t args => (b.AddCombination t args).1

/-- Apply a sequence of builder calls in order. -/
def applyCalls (b : QueryBuilder) (calls : List QBCall) : QueryBuilder :=
  calls.foldl applyCall b

/-- The calls that mark the builder as holding a selector in the code:
`AddFilter`, `SetDocType` and `AddCondition` — and no other, in particular
not `AddCombination`. -/
def isSelectorCall : QBCall → Bool
  | .addFilter _ _ => true
  | .setDocType _ => true
  | .addCondition _ _ => true
  | _ => false

/-- Modelled from the spec: a concrete instance of the pluggable value
codec over `Nat` payloads, used to instantiate general theorems. Encoding
stores `n` as the single byte `n + 1` (never empty); key sources are not
encodable. -/
def natPutTr : Entry Nat → Except GoErr Bytes
  | .value n => .ok [n + 1]
  | _ => .error .Other

/-- Modelled from the spec: the matching decoder; it round-trips the
encoder and, as the spec requires of tombstone rows, tolerates empty input
(returning the zero value). -/
def natGetTr : Bytes → List (Entry Nat) → Except GoErr (Entry Nat)
  | [], _ => .ok (.value 0)
  | [m], _ => .ok (.value (m - 1))
  | _, _ => .error .Other

/-- A concrete engine instance: identity key transformer (the `KeyAsIs`
default) together with the `Nat` codec above. -/
def implNat : Impl Nat :=
  ⟨fun k => .ok k, natGetTr, natPutTr⟩

/-- Specification-side predicate: a sort token the code accepts — exactly
one colon and a second part that is literally `asc` or `desc`. -/
def validSortToken (tok : GoStr) : Bool :=
  match goSplit ':' tok with
  | [_, d] => d = strOf "asc" ∨ d = strOf "desc"
  | _ => false

/-- Specification-side parse of an accepted sort token: field and
lowercased direction, as `AddSort` stores them. -/
def parseSortToken (tok : GoStr) : GoStr × GoStr :=
  match goSplit ':' tok with
  | [f, d] => (f, goToLower d)
  | _ => ([], [])

/-- The builder of the spec's first compiler example: one equality filter. -/
def qbEx1 : QueryBuilder :=
  NewQB.AddFilter (strOf "name") (.str (strOf "x"))

/-- The builder of the spec's second compiler example: a doc type and an
`$or` combination of two filters. -/
def qbEx2 : QueryBuilder :=
  ((NewQB.SetDocType (strOf "T")).AddCombination qOR
    [.filter (strOf "a") (.num 1), .filter (strOf "b") (.num 2)]).1

/-! Helper lemmas. -/

theorem validAttr_no_sep {s : GoStr} (h : validAttr s = true) :
    ∀ c ∈ s, c ≠ minUnicodeRune := by
  intro c hc
  have h2 := List.all_eq_true.mp h c hc
  simp only [Bool.and_eq_true, decide_eq_true_eq] at h2
  exact h2.1

theorem splitComponents_chunk (s : GoStr) (rest : List Char) :
    ∀ acc : GoStr, (∀ c ∈ s, c ≠ minUnicodeRune) →
    splitComponents (s ++ minUnicodeRune :: rest) acc
      = (acc.reverse ++ s) :: splitComponents rest [] := by
  induction s with
  | nil => intro acc _; simp [splitComponents]
  | cons c cs ih =>
    intro acc h
    have hc : c ≠ minUnicodeRune := h c (List.mem_cons_self c cs)
    simp only [List.cons_append, splitComponents, if_neg hc, List.append_eq]
    rw [ih (c :: acc) (fun x hx => h x (List.mem_cons_of_mem c hx))]
    simp

theorem splitComponents_flatten : ∀ attrs : List GoStr,
    (∀ a ∈ attrs, ∀ c ∈ a, c ≠ minUnicodeRune) →
    splitComponents ((attrs.map (fun a => a ++ [minUnicodeRune])).flatten) []
      = attrs := by
  intro attrs
  induction attrs with
  | nil => intro _; simp [splitComponents]
  | cons a rest ih =>
    intro h
    have hsh : a ++ [minUnicodeRune] ++ (rest.map (fun x => x ++ [minUnicodeRune])).flatten
        = a ++ minUnicodeRune :: (rest.map (fun x => x ++ [minUnicodeRune])).flatten := by
      simp
    simp only [List.map_cons, List.flatten_cons, hsh]
    rw [splitComponents_chunk a _ [] (h a (List.mem_cons_self a rest))]
    simp [ih (fun x hx => h x (List.mem_cons_of_mem a hx))]

/-! Claim theorems. -/

/-- C6: encoding a key to a ledger key string — the empty key fails with
the empty-key error `ErrKeyPartsLength`; a single-part key returns that
part unchanged; a multi-part key is built by the platform's composite-key
construction with part 0 as object type and the rest as attributes. -/
theorem keyToString_cases :
    KeyToString ([] : GoKey) = .error .ErrKeyPartsLength ∧
    (∀ p : GoStr, KeyToString [p] = .ok p) ∧
    (∀ (p q : GoStr) (rest : List GoStr),
      KeyToString (p :: q :: rest) = createCompositeKey p (q :: rest)) :=
  ⟨rfl, fun _ => rfl, fun _ _ _ => rfl⟩

/-- C8: for every part sequence accepted by the platform's composite-key
construction (part 0 as object type, the rest as attributes), splitting
the built composite key reproduces the parts exactly. -/
theorem createCompositeKey_roundTrip (objectType : GoStr) (attrs : List GoStr)
    (ck : GoStr) (h : createCompositeKey objectType attrs = .ok ck) :
    splitCompositeKey ck = some (objectType, attrs) := by
  unfold createCompositeKey at h
  by_cases hv : (validAttr objectType && attrs.all validAttr) = true
  · rw [if_pos hv] at h
    injection h with h
    subst h
    obtain ⟨hv1, hv2⟩ : validAttr objectType = true ∧ attrs.all validAttr = true := by
      simpa using hv
    have hobj : ∀ c ∈ objectType, c ≠ minUnicodeRune := validAttr_no_sep hv1
    have hattrs : ∀ a ∈ attrs, ∀ c ∈ a, c ≠ minUnicodeRune := by
      intro a ha
      exact validAttr_no_sep (List.all_eq_true.mp hv2 a ha)
    unfold splitCompositeKey
    have htail : ([minUnicodeRune] ++ objectType ++ [minUnicodeRune] ++
        (attrs.map (fun a => a ++ [minUnicodeRune])).flatten).tail
        = objectType ++ minUnicodeRune ::
            (attrs.map (fun a => a ++ [minUnicodeRune])).flatten := by
      simp
    rw [htail, splitComponents_chunk objectType _ [] hobj,
      splitComponents_flatten attrs hattrs]
    simp
  · rw [if_neg hv] at h
    exact absurd h (by simp)

/-- Witness for C8 at the concrete parts `B`, `x`, `y`. -/
theorem createCompositeKey_roundTrip_witness :
    splitCompositeKey (strOf "\x00B\x00x\x00y\x00")
      = some (strOf "B", [strOf "x", strOf "y"]) :=
  createCompositeKey_roundTrip (strOf "B") [strOf "x", strOf "y"] _ (by decide)

theorem assocGet_assocPut_self {α : Type} (m : List (GoStr × α)) (k : GoStr)
    (v : α) : assocGet (assocPut m k v) k = some v := by
  induction m with
  | nil => simp [assocGet, assocPut]
  | cons p rest ih =>
    obtain ⟨k', v'⟩ := p
    by_cases hk : k' = k
    · simp [assocPut, assocGet, hk]
    · simp [assocPut, assocGet, hk, ih]

theorem getState_putState_self (st : MockStub) (k : GoStr) (bb : Bytes) :
    (st.putState k bb).getState k = bb := by
  simp [MockStub.putState, MockStub.getState, assocGet_assocPut_self]

theorem histOf_putState_self (st : MockStub) (k : GoStr) (bb : Bytes) :
    (st.putState k bb).histOf k
      = st.histOf k ++ [⟨st.txCounter, st.txCounter, false, bb⟩] := by
  simp [MockStub.putState, MockStub.histOf, assocGet_assocPut_self]

theorem histOf_delState_self (st : MockStub) (k : GoStr) :
    (st.delState k).histOf k
      = st.histOf k ++ [⟨st.txCounter, st.txCounter, true, []⟩] := by
  simp [MockStub.delState, MockStub.histOf, assocGet_assocPut_self]

/-- C1: `Insert` performs an existence check first and fails with
`ErrKeyAlreadyExists` when the key is present; when absent it delegates to
`Put`; and in the duplicate-insert scenario — a round-tripping codec, a
nonempty encoding, an absent key — the first `Insert` succeeds, the second
fails with `ErrKeyAlreadyExists` leaving the state unchanged, and `Get`
still returns the first value. -/
theorem insert_semantics {V : Type} (s : Impl V) (st : MockStub) :
    (∀ (entry : Entry V) (values : List (Entry V)),
        s.Exists st entry = .ok true →
        s.Insert st entry values = .error .ErrKeyAlreadyExists) ∧
    (∀ (entry : Entry V) (values : List (Entry V)),
        s.Exists st entry = .ok false →
        s.Insert st entry values =
          match Impl.argKeyValue entry values with
          | .error _ => .error .UnexpectedError
          | .ok (key, value) => s.Put st (.key key) [value]) ∧
    (∀ (k : GoKey) (v v' : Entry V) (bb : Bytes) (tk : TransformedKey),
        s.key (.key k) = .ok tk →
        s.StatePutTransformer v = .ok bb → bb ≠ [] →
        s.StateGetTransformer bb [] = .ok v →
        st.getState tk.Str = [] →
        s.Insert st (.key k) [v] = .ok (st.putState tk.Str bb) ∧
        s.Insert (st.putState tk.Str bb) (.key k) [v']
          = .error .ErrKeyAlreadyExists ∧
        s.Get (st.putState tk.Str bb) (.key k) [] = .ok v) := by
  refine ⟨?_, ?_, ?_⟩
  · intro entry values hex
    simp [Impl.Insert, hex]
  · intro entry values hex
    simp [Impl.Insert, hex]
  · intro k v v' bb tk hkey henc hne hdec habs
    have hex : s.Exists st (.key k) = .ok false := by
      simp [Impl.Exists, hkey, habs]
    have hakv : Impl.argKeyValue (V := V) (.key k) [v] = .ok (k, v) := by
      simp [Impl.argKeyValue, NormalizeStateKey, Except.bind]
    have hput : s.Put st (.key k) [v] = .ok (st.putState tk.Str bb) := by
      simp [Impl.Put, hakv, henc, hkey]
    have hins1 : s.Insert st (.key k) [v] = .ok (st.putState tk.Str bb) := by
      simp [Impl.Insert, hex, hakv, hput]
    have hget1 : (st.putState tk.Str bb).getState tk.Str = bb :=
      getState_putState_self st tk.Str bb
    have hex2 : s.Exists (st.putState tk.Str bb) (.key k) = .ok true := by
      simp [Impl.Exists, hkey, hget1, hne]
    have hins2 : s.Insert (st.putState tk.Str bb) (.key k) [v']
        = .error .ErrKeyAlreadyExists := by
      simp [Impl.Insert, hex2]
    have hget : s.Get (st.putState tk.Str bb) (.key k) [] = .ok v := by
      simp [Impl.Get, hkey, hget1, List.length_eq_zero, hne, hdec]
    exact ⟨hins1, hins2, hget⟩

/-- Witness for C1 at a concrete key, codec and values. -/
theorem insert_semantics_witness :
    implNat.Insert MockStub.empty (.key [strOf "k"]) [.value 5]
      = .ok (MockStub.empty.putState (strOf "k") [6]) ∧
    implNat.Insert (MockStub.empty.putState (strOf "k") [6])
      (.key [strOf "k"]) [.value 9] = .error .ErrKeyAlreadyExists ∧
    implNat.Get (MockStub.empty.putState (strOf "k") [6]) (.key [strOf "k"]) []
      = .ok (.value 5) :=
  (insert_semantics implNat MockStub.empty).2.2 [strOf "k"] (.value 5)
    (.value 9) [6] ⟨[strOf "k"], [strOf "k"], strOf "k"⟩
    (by decide) (by decide) (by decide) (by decide) (by decide)

/-- C2 counterexample: `Put` with a key plus two values fails, but the
surfaced error is `UnexpectedError`, not `ErrAllowOnlyOneValue` as the
claim states. -/
theorem put_twoValues_cex :
    implNat.Put MockStub.empty (.key [strOf "k"]) [.value 1, .value 2]
      = .error .UnexpectedError ∧
    implNat.Put MockStub.empty (.key [strOf "k"]) [.value 1, .value 2]
      ≠ .error .ErrAllowOnlyOneValue :=
  ⟨by decide, by decide⟩

/-- C2 (amended): `Put` with more than one extra value always fails, with
`ErrAllowOnlyOneValue` arising inside `argKeyValue` but surfaced by `Put`
as `UnexpectedError`. -/
theorem put_twoValues_amended {V : Type} (s : Impl V) (st : MockStub)
    (entry : Entry V) (values : List (Entry V)) (h : 2 ≤ values.length) :
    s.Put st entry values = .error .UnexpectedError ∧
    (∀ k : GoKey, NormalizeStateKey entry = .ok k →
        Impl.argKeyValue entry values = .error .ErrAllowOnlyOneValue) := by
  obtain ⟨a, b, l, hv⟩ : ∃ a b l, values = a :: b :: l := by
    rcases values with _ | ⟨a, rest⟩
    · simp at h
    · rcases rest with _ | ⟨b, l⟩
      · simp at h
      · exact ⟨a, b, l, rfl⟩
  subst hv
  cases hn : NormalizeStateKey entry with
  | error e =>
    refine ⟨?_, ?_⟩
    · simp [Impl.Put, Impl.argKeyValue, hn, Bind.bind, Except.bind]
    · intro k hk
      simp at hk
  | ok k0 =>
    refine ⟨?_, ?_⟩
    · simp [Impl.Put, Impl.argKeyValue, hn, Bind.bind, Except.bind]
    · intro k hk
      simp [Impl.argKeyValue, hn, Bind.bind, Except.bind]

/-- Witness for the amended C2 at a concrete key and value pair. -/
theorem put_twoValues_amended_witness :
    implNat.Put MockStub.empty (.strs [strOf "a"]) [.value 1, .value 2]
      = .error .UnexpectedError ∧
    Impl.argKeyValue (V := Nat) (.strs [strOf "a"]) [.value 1, .value 2]
      = .error .ErrAllowOnlyOneValue := by
  have h := put_twoValues_amended implNat MockStub.empty (.strs [strOf "a"])
    [.value 1, .value 2] (by decide)
  exact ⟨h.1, h.2 [strOf "a"] (by decide)⟩

/-- C3: `Get` on an absent key returns the supplied default (`config[1]`),
fails with `ErrKeyNotFound` when no default was supplied, and on a present
key returns the stored bytes decoded through the get transformer. -/
theorem get_semantics {V : Type} (s : Impl V) (st : MockStub) (entry : Entry V)
    (tk : TransformedKey) (hkey : s.key entry = .ok tk) :
    (∀ (c0 dflt : Entry V) (rest : List (Entry V)), st.getState tk.Str = [] →
        s.Get st entry (c0 :: dflt :: rest) = .ok dflt) ∧
    (∀ config : List (Entry V), st.getState tk.Str = [] → config.length ≤ 1 →
        s.Get st entry config = .error .ErrKeyNotFound) ∧
    (∀ config : List (Entry V), st.getState tk.Str ≠ [] →
        s.Get st entry config
          = s.StateGetTransformer (st.getState tk.Str) config) := by
  refine ⟨?_, ?_, ?_⟩
  · intro c0 dflt rest habs
    simp [Impl.Get, hkey, habs]
  · intro config habs hlen
    rcases config with _ | ⟨c0, rest⟩
    · simp [Impl.Get, hkey, habs]
    · rcases rest with _ | ⟨c1, rest'⟩
      · simp [Impl.Get, hkey, habs]
      · simp at hlen
  · intro config hne
    simp [Impl.Get, hkey, List.length_eq_zero, hne]

/-- Witness for C3: default returned on an absent key, `ErrKeyNotFound`
without a default, decoded bytes on a present key. -/
theorem get_semantics_witness :
    implNat.Get (MockStub.empty.putState (strOf "k") [5]) (.key [strOf "a"])
      [.value 0, .value 7] = .ok (.value 7) ∧
    implNat.Get (MockStub.empty.putState (strOf "k") [5]) (.key [strOf "a"]) []
      = .error .ErrKeyNotFound ∧
    implNat.Get (MockStub.empty.putState (strOf "k") [5]) (.key [strOf "k"]) []
      = .ok (.value 4) := by
  have ha := get_semantics implNat (MockStub.empty.putState (strOf "k") [5])
    (.key [strOf "a"]) ⟨[strOf "a"], [strOf "a"], strOf "a"⟩ (by decide)
  have hk := get_semantics implNat (MockStub.empty.putState (strOf "k") [5])
    (.key [strOf "k"]) ⟨[strOf "k"], [strOf "k"], strOf "k"⟩ (by decide)
  refine ⟨ha.1 (.value 0) (.value 7) [] (by decide),
    ha.2.1 [] (by decide) (by decide), ?_⟩
  rw [hk.2.2 [] (by decide)]
  decide

theorem richQueryLoop_spec {V : Type}
    (tr : Bytes → List (Entry V) → Except GoErr (Entry V)) (target : Entry V)
    (pageSize : Int) :
    ∀ (rows : List Bytes) (i : Int) (entries : List (Entry V)) (n : Int),
      richQueryLoop tr target pageSize rows i = .ok (entries, n) →
      n = i + entries.length ∧ n ≤ max i pageSize := by
  intro rows
  induction rows with
  | nil =>
    intro i entries n h
    have h' : ([] : List (Entry V)) = entries ∧ i = n := by
      simpa [richQueryLoop] using h
    obtain ⟨rfl, rfl⟩ := h'
    exact ⟨by simp, le_max_left i pageSize⟩
  | cons b rest ih =>
    intro i entries n h
    by_cases hi : i < pageSize
    · simp only [richQueryLoop, if_pos hi] at h
      cases htr : tr b [target] with
      | error e => rw [htr] at h; simp at h
      | ok v =>
        rw [htr] at h
        cases hrec : richQueryLoop tr target pageSize rest (i + 1) with
        | error e => rw [hrec] at h; simp at h
        | ok p =>
          obtain ⟨es, m⟩ := p
          rw [hrec] at h
          obtain ⟨ih1, ih2⟩ := ih (i + 1) es m hrec
          have h' : v :: es = entries ∧ m = n := by simpa using h
          obtain ⟨rfl, rfl⟩ := h'
          refine ⟨?_, ?_⟩
          · simp only [List.length_cons]
            push_cast
            omega
          · have hmax : max (i + 1) pageSize = pageSize := max_eq_right (by omega)
            rw [hmax] at ih2
            exact le_trans ih2 (le_max_right i pageSize)
    · simp only [richQueryLoop, if_neg hi] at h
      have h' : ([] : List (Entry V)) = entries ∧ i = n := by simpa using h
      obtain ⟨rfl, rfl⟩ := h'
      exact ⟨by simp, le_max_left i pageSize⟩

/-- C10: whenever `RichQuery` succeeds with a non-negative page size, it
returns at most `pageSize` entries, and the returned counter always equals
the number of returned entries. -/
theorem richQuery_pageSize {V : Type} (s : Impl V) (st : MockStub)
    (query : GoStr) (target : Entry V) (pageSize : Int)
    (entries : List (Entry V)) (n : Int) (hps : 0 ≤ pageSize)
    (h : s.RichQuery st query target pageSize = .ok (entries, n)) :
    (entries.length : Int) ≤ pageSize ∧ n = entries.length := by
  obtain ⟨h1, h2⟩ := richQueryLoop_spec s.StateGetTransformer target pageSize
    (st.getQueryResult query) 0 entries n h
  have hm : max 0 pageSize = pageSize := max_eq_right hps
  rw [hm] at h2
  omega

/-- Witness for C10: three backend rows, page size two — two entries
returned and the counter equals two. -/
theorem richQuery_pageSize_witness :
    (([Entry.value 2, Entry.value 3] : List (Entry Nat)).length : Int) ≤ 2 ∧
    (2 : Int) = ([Entry.value 2, Entry.value 3] : List (Entry Nat)).length :=
  richQuery_pageSize implNat ⟨[], [], [(strOf "q", [[3], [4], [5]])], 0⟩
    (strOf "q") (.value 0) 2 [.value 2, .value 3] 2 (by decide) (by decide)

/-- C9: after `Put(k,v1)`, `Put(k,v2)`, `Delete(k)` on a key with no prior
history, `GetHistory` succeeds — the decoder tolerating the tombstone's
empty payload — and returns, newest first: the tombstone, then `(v2,
false)`, then `(v1, false)`. -/
theorem getHistory_scenario {V : Type} (s : Impl V) (st : MockStub)
    (k : GoKey) (v1 v2 target d : Entry V) (b1 b2 : Bytes)
    (tk : TransformedKey)
    (hkey : s.key (.key k) = .ok tk)
    (h1 : s.StatePutTransformer v1 = .ok b1)
    (h2 : s.StatePutTransformer v2 = .ok b2)
    (hd1 : s.StateGetTransformer b1 [target] = .ok v1)
    (hd2 : s.StateGetTransformer b2 [target] = .ok v2)
    (hde : s.StateGetTransformer [] [target] = .ok d)
    (hh0 : st.histOf tk.Str = []) :
    s.Put st (.key k) [v1] = .ok (st.putState tk.Str b1) ∧
    s.Put (st.putState tk.Str b1) (.key k) [v2]
      = .ok ((st.putState tk.Str b1).putState tk.Str b2) ∧
    s.Delete ((st.putState tk.Str b1).putState tk.Str b2) (.key k)
      = .ok (((st.putState tk.Str b1).putState tk.Str b2).delState tk.Str) ∧
    Except.map (List.map fun e => (e.IsDeleted, e.Value))
      (s.GetHistory
        (((st.putState tk.Str b1).putState tk.Str b2).delState tk.Str)
        (.key k) target)
      = .ok [(true, d), (false, v2), (false, v1)] := by
  have hakv1 : Impl.argKeyValue (V := V) (.key k) [v1] = .ok (k, v1) := by
    simp [Impl.argKeyValue, NormalizeStateKey, Bind.bind, Except.bind,
      Pure.pure, Except.pure]
  have hakv2 : Impl.argKeyValue (V := V) (.key k) [v2] = .ok (k, v2) := by
    simp [Impl.argKeyValue, NormalizeStateKey, Bind.bind, Except.bind,
      Pure.pure, Except.pure]
  have e1 : (st.putState tk.Str b1).histOf tk.Str
      = [⟨st.txCounter, st.txCounter, false, b1⟩] := by
    rw [histOf_putState_self, hh0]
    simp
  have e2 : ((st.putState tk.Str b1).putState tk.Str b2).histOf tk.Str
      = [⟨st.txCounter, st.txCounter, false, b1⟩,
         ⟨st.txCounter + 1, st.txCounter + 1, false, b2⟩] := by
    rw [histOf_putState_self, e1]
    simp [MockStub.putState]
  have e3 : ((((st.putState tk.Str b1).putState tk.Str b2)).delState tk.Str).histOf tk.Str
      = [⟨st.txCounter, st.txCounter, false, b1⟩,
         ⟨st.txCounter + 1, st.txCounter + 1, false, b2⟩,
         ⟨st.txCounter + 2, st.txCounter + 2, true, []⟩] := by
    rw [histOf_delState_self, e2]
    simp [MockStub.putState]
  refine ⟨?_, ?_, ?_, ?_⟩
  · simp [Impl.Put, hakv1, h1, hkey]
  · simp [Impl.Put, hakv2, h2, hkey]
  · simp [Impl.Delete, hkey]
  · simp [Impl.GetHistory, hkey, MockStub.getHistoryForKey, e3, fillHistory,
      hde, hd2, hd1, Except.map]

/-- Witness for C9 at a concrete key, codec and values. -/
theorem getHistory_scenario_witness :
    implNat.Put MockStub.empty (.key [strOf "h"]) [.value 1]
      = .ok (MockStub.empty.putState (strOf "h") [2]) ∧
    implNat.Put (MockStub.empty.putState (strOf "h") [2])
      (.key [strOf "h"]) [.value 2]
      = .ok ((MockStub.empty.putState (strOf "h") [2]).putState (strOf "h") [3]) ∧
    implNat.Delete
      ((MockStub.empty.putState (strOf "h") [2]).putState (strOf "h") [3])
      (.key [strOf "h"])
      = .ok (((MockStub.empty.putState (strOf "h") [2]).putState
          (strOf "h") [3]).delState (strOf "h")) ∧
    Except.map (List.map fun e => (e.IsDeleted, e.Value))
      (implNat.GetHistory
        (((MockStub.empty.putState (strOf "h") [2]).putState
          (strOf "h") [3]).delState (strOf "h"))
        (.key [strOf "h"]) (.value 0))
      = .ok [(true, .value 0), (false, .value 2), (false, .value 1)] :=
  getHistory_scenario implNat MockStub.empty [strOf "h"] (.value 1) (.value 2)
    (.value 0) (.value 0) [2] [3] ⟨[strOf "h"], [strOf "h"], strOf "h"⟩
    (by decide) (by decide) (by decide) (by decide) (by decide) (by decide)
    (by decide)

theorem hasSelector_applyCalls (calls : List QBCall) : ∀ b : QueryBuilder,
    (applyCalls b calls).HasSelector
      = (b.HasSelector || calls.any isSelectorCall) := by
  induction calls with
  | nil => intro b; simp [applyCalls]
  | cons c rest ih =>
    intro b
    have hstep : applyCalls b (c :: rest) = applyCalls (applyCall b c) rest := rfl
    rw [hstep, ih (applyCall b c)]
    cases c <;>
      simp [applyCall, isSelectorCall, QueryBuilder.AddField,
        QueryBuilder.AddUseIndex, QueryBuilder.AddFilter,
        QueryBuilder.SetDocType, QueryBuilder.SetLimit, QueryBuilder.SetSkip,
        QueryBuilder.AddCondition, QueryBuilder.AddSort,
        QueryBuilder.AddCombination, Bool.or_assoc]

/-- C4 counterexample: a builder on which only `AddCombination` was called
fails with `NoQuerySelectorError` — `AddCombination` does not mark the
builder as holding a selector, contrary to the claim. -/
theorem build_combinationOnly_cex :
    (QueryBuilder.Build
      (NewQB.AddCombination qOR [.filter (strOf "a") (.num 1)]).1)
      = .error .NoQuerySelectorError := rfl

/-- C4 (amended): `Build` fails with `NoQuerySelectorError` if and only if
none of the selector-contributing calls was made, where the
selector-contributing calls are exactly `AddFilter`, `AddCondition` and
`SetDocType`; `AddCombination` does not contribute, so a builder populated
by any sequence avoiding those three calls — combinations included —
fails with `NoQuerySelectorError`. -/
theorem build_noSelector_iff (calls : List QBCall) :
    (applyCalls NewQB calls).Build = .error .NoQuerySelectorError ↔
      calls.any isSelectorCall = false := by
  have hs := hasSelector_applyCalls calls NewQB
  rw [show NewQB.HasSelector = false from rfl, Bool.false_or] at hs
  simp only [QueryBuilder.Build, hs]
  cases hcs : calls.any isSelectorCall <;> simp

/-- C5 counterexample: an uppercase direction is rejected — the direction
check of `AddManySorts` is case-sensitive, contrary to the claim. -/
theorem addManySorts_uppercase_cex :
    (NewQB.AddManySorts [strOf "name:ASC"]).2
      = some .InvalidSortQueryError := by decide

/-- C5 (amended): `AddManySorts` accepts exactly the tokens of shape
`field:asc` / `field:desc` with the direction written in lowercase,
failing with `InvalidSortQueryError` on any other token, and on success
appends the parsed sorts preserving input order. -/
theorem addManySorts_amended (tokens : List GoStr) : ∀ b : QueryBuilder,
    ((b.AddManySorts tokens).2
      = if tokens.all validSortToken then none
        else some .InvalidSortQueryError) ∧
    (tokens.all validSortToken = true →
      (b.AddManySorts tokens).1.Sorts
        = b.Sorts ++ tokens.map parseSortToken) := by
  induction tokens with
  | nil => intro b; simp [QueryBuilder.AddManySorts]
  | cons t rest ih =>
    intro b
    rcases hsp : goSplit ':' t with _ | ⟨f, _ | ⟨d, _ | ⟨x, xs⟩⟩⟩
    · simp [QueryBuilder.AddManySorts, validSortToken, hsp]
    · simp [QueryBuilder.AddManySorts, validSortToken, hsp]
    · by_cases hd : d = strOf "asc" ∨ d = strOf "desc"
      · obtain ⟨ih1, ih2⟩ := ih (b.AddSort f d)
        refine ⟨?_, ?_⟩
        · simp only [QueryBuilder.AddManySorts, hsp, if_pos hd, ih1,
            List.all_cons]
          simp [validSortToken, hsp, hd]
        · intro hall
          simp only [List.all_cons, Bool.and_eq_true] at hall
          have h2 := ih2 hall.2
          simp only [QueryBuilder.AddManySorts, hsp, if_pos hd]
          rw [h2]
          simp [QueryBuilder.AddSort, parseSortToken, hsp]
      · refine ⟨?_, ?_⟩
        · simp only [QueryBuilder.AddManySorts, hsp, if_neg hd,
            List.all_cons]
          simp [validSortToken, hsp, hd]
        · intro hall
          simp only [List.all_cons, Bool.and_eq_true] at hall
          exact absurd hall.1 (by simp [validSortToken, hsp, hd])
    · simp [QueryBuilder.AddManySorts, validSortToken, hsp]

/-- Witness for the amended C5: the two valid tokens are accepted in
order, with their fields and directions stored. -/
theorem addManySorts_amended_witness :
    (NewQB.AddManySorts [strOf "name:asc", strOf "age:desc"]).2 = none ∧
    (NewQB.AddManySorts [strOf "name:asc", strOf "age:desc"]).1.Sorts
      = [(strOf "name", strOf "asc"), (strOf "age", strOf "desc")] := by
  have h := addManySorts_amended [strOf "name:asc", strOf "age:desc"] NewQB
  refine ⟨?_, ?_⟩
  · rw [h.1]
    decide
  · rw [h.2 (by decide)]
    decide

/-- C7 counterexample: the second example does not serialize to the
claimed string — Go's `encoding/json` sorts map keys, so `$or` precedes
`docType` in the output. -/
theorem build_example2_cex :
    qbEx2.Build ≠ .ok (strOf
      "\x7b\"selector\":\x7b\"docType\":\"T\",\"$or\":[\x7b\"a\":1\x7d,\x7b\"b\":2\x7d]\x7d\x7d") := by
  decide

/-- C7 (amended): the compiler produces the specified JSON documents — the
filter-only builder serializes exactly as claimed; the doc-type plus `$or`
builder assembles the selector document with `docType` and the compiled
`$or` array (sibling filters as single-field maps, in order) as siblings,
and serializes it with object keys sorted, `$or` before `docType`. -/
theorem build_examples_amended :
    qbEx1.Build = .ok (strOf "\x7b\"selector\":\x7b\"name\":\"x\"\x7d\x7d") ∧
    qbEx2.Build = .ok (strOf
      "\x7b\"selector\":\x7b\"$or\":[\x7b\"a\":1\x7d,\x7b\"b\":2\x7d],\"docType\":\"T\"\x7d\x7d") ∧
    buildQueryMap qbEx2
      = [(strOf "selector", .obj [(strOf "docType", .str (strOf "T")),
          (qOR, .arr [.obj [(strOf "a", .num 1)],
            .obj [(strOf "b", .num 2)]])])] :=
  ⟨by decide, by decide, rfl⟩

end CCKit
